import Mathlib

/-!
# Verification of the MyMath round engine

Shallow embedding of the algorithmic core of `src/my_math/game.py`:
the grouping algorithm (`CountingGameView._calculate_groups`), the
distractor-generation loops (`_create_answer_buttons` of the counting and
addition views), round-spec generation (`_next_round`), the reward policy
(`_check_video_reward`), and the timer-driven round state machine of
`CountingGameView` (callbacks scheduled with `self.after`).

Python machine integers are unbounded; all quantities here are natural
numbers (every value in the modelled code paths is non-negative).
`random.randint(lo, hi)` (inclusive uniform) is modelled by a function of
an arbitrary draw `r : Nat`, reduced modulo the window size.
-/

namespace MyMath

/-- Model of Python `random.randint lo hi` (both bounds inclusive): an
arbitrary natural draw `r` mapped into the window `[lo, hi]`.  For
`lo ≤ hi` the result always lies in `[lo, hi]`, and every value of the
window is attained (uniformly, for `r` uniform over a multiple of the
window size). -/
def randint (lo hi r : Nat) : Nat := lo + r % (hi + 1 - lo)

/-! ## GroupingEngine: `CountingGameView._calculate_groups`

The Python body is three `while` loops and an `if/elif` chain; each loop
is embedded as a recursive function returning the emitted groups together
with the final value of `remaining`. -/

/-- Loop `while remaining >= 10: groups.append(10); remaining -= 10`. -/
def whileGE10 (remaining : Nat) : List Nat × Nat :=
  if h : 10 ≤ remaining then
    let p := whileGE10 (remaining - 10)
    (10 :: p.1, p.2)
  else ([], remaining)
termination_by remaining
decreasing_by omega

/-- Loop `while remaining >= 4: groups.append(4); remaining -= 4`. -/
def whileGE4 (remaining : Nat) : List Nat × Nat :=
  if h : 4 ≤ remaining then
    let p := whileGE4 (remaining - 4)
    (4 :: p.1, p.2)
  else ([], remaining)
termination_by remaining
decreasing_by omega

/-- Loop `while remaining >= 2: groups.append(2); remaining -= 2`. -/
def whileGE2 (remaining : Nat) : List Nat × Nat :=
  if h : 2 ≤ remaining then
    let p := whileGE2 (remaining - 2)
    (2 :: p.1, p.2)
  else ([], remaining)
termination_by remaining
decreasing_by omega

/-- Embedding of `CountingGameView._calculate_groups(count)` (game.py lines 762-805):
peel 10s, then even remainders peel 4s then 2s, odd remainders follow the
explicit `elif` chain on 1, 3, 5, 7, 9. -/
def calculate_groups (count : Nat) : List Nat :=
  let tens := whileGE10 count
  let remaining := tens.2
  if remaining = 0 then tens.1
  else if remaining % 2 = 0 then
    let fours := whileGE4 remaining
    let twos := whileGE2 fours.2
    tens.1 ++ fours.1 ++ twos.1
  else
    tens.1 ++
      (if remaining = 1 then [1]
       else if remaining = 3 then [3]
       else if remaining = 5 then [3, 2]
       else if remaining = 7 then [4, 3]
       else if remaining = 9 then [4, 3, 2]
       else [])

/-- The remainder table the code actually realises for `r = count % 10`
(for diffing against the spec's pedagogical table, which differs at
`r = 8`: the code's 4-peeling loop emits `[4, 4]`, not `[4, 2, 2]`). -/
def code_remainder_table (r : Nat) : List Nat :=
  match r with
  | 0 => []
  | 1 => [1]
  | 2 => [2]
  | 3 => [3]
  | 4 => [4]
  | 5 => [3, 2]
  | 6 => [4, 2]
  | 7 => [4, 3]
  | 8 => [4, 4]
  | 9 => [4, 3, 2]
  | _ => []

/-! ## DistractorGenerator: the wrong-answer rejection loops

`CountingGameView._create_answer_buttons` and
`AdditionGameView._create_answer_buttons` contain the textually identical
loop

    wrong_answers = []
    while len(wrong_answers) < 2:
        num = random.randint(min_val, max_val)
        if num != self.correct_answer and num not in wrong_answers and num >= 1:
            wrong_answers.append(num)

differing only in `min_val`/`max_val`.  The loop draws from an unbounded
random stream; it is embedded over a finite list of draws, returning
`none` when the draws are exhausted before two wrong answers are found
(the source would keep spinning), together with the unconsumed draws. -/

def wrong_answers_loop (correct min_val max_val : Nat) (acc : List Nat) :
    List Nat → Option (List Nat) × List Nat
  | [] => (if 2 ≤ acc.length then some acc else none, [])
  | r :: rs =>
    if 2 ≤ acc.length then (some acc, r :: rs)
    else
      let num := randint min_val max_val r
      if num ≠ correct ∧ num ∉ acc ∧ 1 ≤ num then
        wrong_answers_loop correct min_val max_val (acc ++ [num]) rs
      else
        wrong_answers_loop correct min_val max_val acc rs

/-- Counting-mode wrong answers (game.py lines 932-946):
`min_val = max(1, correct - 3)`, `max_val = correct + 3`. -/
def counting_wrong_answers (correct : Nat) (rs : List Nat) : Option (List Nat) :=
  (wrong_answers_loop correct (max 1 (correct - 3)) (correct + 3) [] rs).1

/-- Addition-mode wrong answers (game.py lines 1619-1634):
`min_val = max(2, correct - 3)`, `max_val = min(max_sum + 2, correct + 3)`. -/
def addition_wrong_answers (max_sum correct : Nat) (rs : List Nat) : Option (List Nat) :=
  (wrong_answers_loop correct (max 2 (correct - 3)) (min (max_sum + 2) (correct + 3)) [] rs).1

/-! ## RewardPolicy: `_check_video_reward`

`CountingResultsView._check_video_reward` (lines 1123-1131) and
`AdditionResultsView._check_video_reward` (lines 1814-1822) are textually
identical and read only the `is_correct` field of the history entries. -/

/-- One entry of the session history list built by `_check_answer`
(`{"round": ..., "correct_answer": ..., "player_answer": ..., "is_correct": ...}`;
the addition view also stores `num1`/`num2`, which no modelled code reads). -/
structure Outcome where
  round : Nat
  correct_answer : Nat
  player_answer : Nat
  is_correct : Bool
deriving DecidableEq, Repr

/-- Embedding of `_check_video_reward`: `total >= min_rounds and wrong_count <= max_wrong`,
with `min_rounds`/`max_wrong` read from configuration
(`config.video_min_rounds` / `config.video_max_wrong`). -/
def check_video_reward (history : List Outcome) (min_rounds max_wrong : Nat) : Bool :=
  let total := history.length
  let wrong_count := (history.filter (fun h => !h.is_correct)).length
  total ≥ min_rounds && wrong_count ≤ max_wrong

/-! ## RoundSpec generation

Counting (`CountingGameView._next_round`, lines 736-739): `min_count = 1`
(hardcoded), `max_count = config.game_max_number`, then
`correct_answer = random.randint(min_count, max_count)`.

Addition (`AdditionGameView._next_round`, lines 1359-1363):
`correct_answer = random.randint(2, max_sum)`,
`num1 = random.randint(1, correct_answer - 1)`,
`num2 = correct_answer - num1`. -/

/-- Counting-mode round count; `max_count` is `config.game_max_number`
and the lower bound is the hardcoded `min_count = 1`. -/
def counting_round_count (max_count r : Nat) : Nat :=
  randint 1 max_count r

/-- Addition-mode round numbers `(correct_answer, num1, num2)`;
`max_sum` is `config.game_max_number`, `r1`/`r2` the two draws. -/
def addition_round (max_sum r1 r2 : Nat) : Nat × Nat × Nat :=
  let correct := randint 2 max_sum r1
  let num1 := randint 1 (correct - 1) r2
  (correct, num1, correct - num1)

/-! ## The timer-driven round state machine of `CountingGameView`

The view's mutable fields plus the queue of callbacks scheduled with
`tk.after` and the navigation state of the `GameController`.  Each
delayed callback (`_show_images`, `_create_answer_buttons`,
`_next_round`) becomes a queue entry; firing pops the front entry and
runs the corresponding handler.  `show_view` raises another view but
cancels nothing (the source never calls `after_cancel`), so pending
entries survive navigation.  Rendering, button highlighting, the sound
side effect and the progress boxes are pure UI and are not part of the
state.  Answer-button presentation order (`random.shuffle`) only permutes
the displayed list and is omitted; `answer_buttons` holds the values. -/

/-- The three callbacks `CountingGameView` schedules with `self.after`. -/
inductive Callback
  | showImages
  | createAnswerButtons
  | nextRound
deriving DecidableEq, Repr

/-- The views reachable from the counting game. -/
inductive ViewName
  | mainMenu
  | counting
  | countingResults
deriving DecidableEq, Repr

/-- The configuration keys the counting game reads
(`config.game_rounds`, `config.game_max_number`). -/
structure Config where
  game_rounds : Nat
  game_max_number : Nat

/-- The modelled mutable state: `CountingGameView.current_round`,
`.correct_answer`, `.history`, `.answer_buttons` (button values), the
pending `after` callbacks, the remaining random draws, the histories
handed to `_show_results` (session completions), and the raised view. -/
structure GameState where
  current_round : Nat
  correct_answer : Nat
  history : List Outcome
  answer_buttons : List Nat
  pending : List Callback
  rands : List Nat
  results_shown : List (List Outcome)
  view : ViewName
deriving DecidableEq, Repr

/-- Embedding of `_show_results`: `controller.show_view("counting_results", history=self.history)`. -/
def show_results (s : GameState) : GameState :=
  { s with results_shown := s.results_shown ++ [s.history], view := .countingResults }

/-- Embedding of `CountingGameView._next_round` (lines 717-748): increment the round
counter; past the last round, show the results; otherwise clear the
answer buttons, draw a fresh `correct_answer` and schedule `_show_images`. -/
def next_round (cfg : Config) (s : GameState) : GameState :=
  let s := { s with current_round := s.current_round + 1 }
  if s.current_round > cfg.game_rounds then show_results s
  else
    { s with answer_buttons := [],
             correct_answer := counting_round_count cfg.game_max_number s.rands.headI,
             rands := s.rands.tail,
             pending := s.pending ++ [Callback.showImages] }

/-- Embedding of `CountingGameView._show_images` (lines 750-760): display (UI only)
and schedule `_create_answer_buttons`. -/
def show_images (s : GameState) : GameState :=
  { s with pending := s.pending ++ [Callback.createAnswerButtons] }

/-- Embedding of `CountingGameView._create_answer_buttons` (lines 931-967): run the
wrong-answer loop and install the three button values (`none` means the
source loop is still spinning on an exhausted model stream: no buttons). -/
def create_answer_buttons (s : GameState) : GameState :=
  let res := wrong_answers_loop s.correct_answer
    (max 1 (s.correct_answer - 3)) (s.correct_answer + 3) [] s.rands
  match res with
  | (some ws, rest) => { s with answer_buttons := s.correct_answer :: ws, rands := rest }
  | (none, rest) => { s with answer_buttons := [], rands := rest }

/-- Embedding of `CountingGameView._check_answer(answer)` (lines 969-1010): record the
outcome unconditionally (there is no membership test against the buttons)
and schedule `_next_round`. -/
def check_answer (answer : Nat) (s : GameState) : GameState :=
  { s with history := s.history ++
             [⟨s.current_round, s.correct_answer, answer, answer == s.correct_answer⟩],
           pending := s.pending ++ [Callback.nextRound] }

/-- Fire the front pending `after` callback (tk timers fire in schedule
order; each handler runs to completion). -/
def fire (cfg : Config) (s : GameState) : GameState :=
  match s.pending with
  | [] => s
  | cb :: rest =>
    let s := { s with pending := rest }
    match cb with
    | .showImages => show_images s
    | .createAnswerButtons => create_answer_buttons s
    | .nextRound => next_round cfg s

/-- Embedding of `CountingGameView.show` (lines 662-667): reset the round counter and
history, then run `_next_round` synchronously. -/
def start_session (cfg : Config) (rands : List Nat) : GameState :=
  next_round cfg
    { current_round := 0, correct_answer := 0, history := [], answer_buttons := [],
      pending := [], rands := rands, results_shown := [], view := .counting }

/-- Embedding of `GameController.show_view("main_menu")`: raises the menu view; the
counting view's pending `after` callbacks are not cancelled. -/
def goto_main_menu (s : GameState) : GameState :=
  { s with view := .mainMenu }

/-- One full round as driven by the timers and the player: the reveal
delay elapses (`_show_images`), the options delay elapses
(`_create_answer_buttons`), the player answers (`_check_answer`), and the
post-answer delay elapses (`_next_round`). -/
def play_round (cfg : Config) (answer : Nat) (s : GameState) : GameState :=
  fire cfg (check_answer answer (fire cfg (fire cfg s)))

/-- A concrete in-flight round: round 2 is awaiting an answer, the
buttons offer `{3, 4, 5}` with correct answer 4, nothing is pending. -/
def awaiting_answer_state : GameState :=
  ⟨2, 4, [⟨1, 2, 2, true⟩], [3, 4, 5], [], [], [], ViewName.counting⟩

/-- A concrete state right after `_check_answer` in round 2 of a 5-round
session: the `_next_round` callback is pending when the player navigates
away. -/
def stale_pending_state : GameState :=
  ⟨2, 3, [⟨1, 2, 2, true⟩, ⟨2, 3, 4, false⟩], [2, 3, 4],
   [Callback.nextRound], [0], [], ViewName.counting⟩

/-- A complete session with `game_rounds = 5`: start, then five rounds
answered `a1 .. a5` (the spec's `roundCount = 5` scenario). -/
def run_session_5 (maxN : Nat) (rands : List Nat) (a1 a2 a3 a4 a5 : Nat) : GameState :=
  let cfg : Config := ⟨5, maxN⟩
  play_round cfg a5 (play_round cfg a4 (play_round cfg a3
    (play_round cfg a2 (play_round cfg a1 (start_session cfg rands)))))

end MyMath

namespace MyMath

lemma whileGE10_eq (n : Nat) : whileGE10 n = (List.replicate (n / 10) 10, n % 10) := by
  induction n using Nat.strong_induction_on with
  | _ n ih =>
    rw [whileGE10]
    by_cases h : 10 ≤ n
    · simp only [dif_pos h, ih (n - 10) (by omega), Prod.mk.injEq]
      refine ⟨?_, by omega⟩
      have h1 : n / 10 = (n - 10) / 10 + 1 := by omega
      rw [h1, List.replicate_succ]
    · simp only [dif_neg h, Prod.mk.injEq]
      refine ⟨?_, by omega⟩
      have : n / 10 = 0 := by omega
      simp [this]

lemma whileGE4_eq (n : Nat) : whileGE4 n = (List.replicate (n / 4) 4, n % 4) := by
  induction n using Nat.strong_induction_on with
  | _ n ih =>
    rw [whileGE4]
    by_cases h : 4 ≤ n
    · simp only [dif_pos h, ih (n - 4) (by omega), Prod.mk.injEq]
      refine ⟨?_, by omega⟩
      have h1 : n / 4 = (n - 4) / 4 + 1 := by omega
      rw [h1, List.replicate_succ]
    · simp only [dif_neg h, Prod.mk.injEq]
      refine ⟨?_, by omega⟩
      have : n / 4 = 0 := by omega
      simp [this]

lemma whileGE2_eq (n : Nat) : whileGE2 n = (List.replicate (n / 2) 2, n % 2) := by
  induction n using Nat.strong_induction_on with
  | _ n ih =>
    rw [whileGE2]
    by_cases h : 2 ≤ n
    · simp only [dif_pos h, ih (n - 2) (by omega), Prod.mk.injEq]
      refine ⟨?_, by omega⟩
      have h1 : n / 2 = (n - 2) / 2 + 1 := by omega
      rw [h1, List.replicate_succ]
    · simp only [dif_neg h, Prod.mk.injEq]
      refine ⟨?_, by omega⟩
      have : n / 2 = 0 := by omega
      simp [this]

lemma le_randint (lo hi r : Nat) : lo ≤ randint lo hi r :=
  Nat.le_add_right _ _

lemma randint_le (lo hi r : Nat) (h : lo ≤ hi) : randint lo hi r ≤ hi := by
  unfold randint
  have : r % (hi + 1 - lo) < hi + 1 - lo := Nat.mod_lt _ (by omega)
  omega

lemma randint_exact (lo hi v : Nat) (h1 : lo ≤ v) (h2 : v ≤ hi) :
    randint lo hi (v - lo) = v := by
  unfold randint
  have : (v - lo) % (hi + 1 - lo) = v - lo := Nat.mod_eq_of_lt (by omega)
  omega

/-- Soundness of the rejection loop: whenever it produces a result from a
well-formed accumulator, the result holds exactly two distinct values,
each `≠ correct`, `≥ 1`, and inside the sampling window. -/
lemma wrong_answers_loop_sound (correct lo hi : Nat) (hlohi : lo ≤ hi) :
    ∀ (rs acc : List Nat), acc.length ≤ 2 → acc.Nodup →
      (∀ x ∈ acc, x ≠ correct ∧ 1 ≤ x ∧ lo ≤ x ∧ x ≤ hi) →
      ∀ ws, (wrong_answers_loop correct lo hi acc rs).1 = some ws →
        ws.length = 2 ∧ ws.Nodup ∧
        ∀ x ∈ ws, x ≠ correct ∧ 1 ≤ x ∧ lo ≤ x ∧ x ≤ hi := by
  intro rs
  induction rs with
  | nil =>
    intro acc hlen hnd hprop ws hws
    simp only [wrong_answers_loop] at hws
    split at hws
    · cases hws
      exact ⟨by omega, hnd, hprop⟩
    · cases hws
  | cons r rest ih =>
    intro acc hlen hnd hprop ws hws
    simp only [wrong_answers_loop] at hws
    split at hws
    · simp only at hws
      cases hws
      exact ⟨by omega, hnd, hprop⟩
    · rename_i hshort
      split at hws
      · rename_i hcond
        refine ih (acc ++ [randint lo hi r]) ?_ ?_ ?_ ws hws
        · simp
          omega
        · simp [List.nodup_append, hnd]
          exact fun hmem => hcond.2.1 hmem
        · intro x hx
          rcases List.mem_append.mp hx with hx | hx
          · exact hprop x hx
          · simp at hx
            subst hx
            exact ⟨hcond.1, hcond.2.2, le_randint lo hi r, randint_le lo hi r hlohi⟩
      · exact ih acc hlen hnd hprop ws hws

/-- Lower bound of the rejection loop, independent of the window shape:
every produced value is at least `lo` (each accepted value is a
`randint lo hi` sample). -/
lemma wrong_answers_loop_lower (correct lo hi : Nat) :
    ∀ (rs acc : List Nat), (∀ x ∈ acc, lo ≤ x) →
      ∀ ws, (wrong_answers_loop correct lo hi acc rs).1 = some ws →
        ∀ x ∈ ws, lo ≤ x := by
  intro rs
  induction rs with
  | nil =>
    intro acc hprop ws hws
    simp only [wrong_answers_loop] at hws
    split at hws
    · cases hws
      exact hprop
    · cases hws
  | cons r rest ih =>
    intro acc hprop ws hws
    simp only [wrong_answers_loop] at hws
    split at hws
    · simp only at hws
      cases hws
      exact hprop
    · split at hws
      · refine ih (acc ++ [randint lo hi r]) ?_ ws hws
        intro x hx
        rcases List.mem_append.mp hx with hx | hx
        · exact hprop x hx
        · simp at hx
          subst hx
          exact le_randint lo hi r
      · exact ih acc hprop ws hws

/-- Closed form of the grouping algorithm: the 10s prefix followed by the
fixed remainder pattern for `count % 10`. -/
lemma calculate_groups_eq (count : Nat) :
    calculate_groups count =
      List.replicate (count / 10) 10 ++ code_remainder_table (count % 10) := by
  unfold calculate_groups
  rw [whileGE10_eq]
  have hlt : count % 10 < 10 := Nat.mod_lt _ (by omega)
  interval_cases h : count % 10 <;>
    simp [whileGE4_eq, whileGE2_eq, code_remainder_table]


/-- C1: for every non-negative `count`, the grouping function's output
sums to `count`, every element is one of 1, 2, 3, 4, 10, and `count = 0`
yields the empty sequence. -/
theorem grouping_invariants (count : Nat) :
    (calculate_groups count).sum = count ∧
    (∀ g ∈ calculate_groups count, g = 1 ∨ g = 2 ∨ g = 3 ∨ g = 4 ∨ g = 10) ∧
    calculate_groups 0 = [] := by
  refine ⟨?_, ?_, by simp [calculate_groups_eq, code_remainder_table]⟩
  · rw [calculate_groups_eq, List.sum_append, List.sum_replicate, smul_eq_mul]
    have hdm := Nat.div_add_mod count 10
    have hlt : count % 10 < 10 := Nat.mod_lt _ (by omega)
    interval_cases h : count % 10 <;> simp [code_remainder_table] <;> omega
  · rw [calculate_groups_eq]
    intro g hg
    rcases List.mem_append.mp hg with h | h
    · have := List.eq_of_mem_replicate h
      omega
    · have hlt : count % 10 < 10 := Nat.mod_lt _ (by omega)
      interval_cases hh : count % 10 <;> simp [code_remainder_table] at h <;> omega

/-- C1 witness: `grouping_invariants` instantiated at `count = 27`
(groups `[10, 10, 4, 3]`): the sum is 27, the element 4 is one of the
allowed sizes, and `groups(0)` is empty. -/
theorem grouping_invariants_witness :
    (calculate_groups 27).sum = 27 ∧
    (4 = 1 ∨ 4 = 2 ∨ 4 = 3 ∨ 4 = 4 ∨ 4 = 10) ∧
    calculate_groups 0 = [] :=
  ⟨(grouping_invariants 27).1,
   (grouping_invariants 27).2.1 4 (by simp [calculate_groups_eq, code_remainder_table]),
   (grouping_invariants 27).2.2⟩

/-- C2 counterexample: for remainder 8 the code's even-remainder loop
(`while remaining >= 4`) emits two groups of 4, so `groups(8) = [4, 4]`,
not the `(4, 2, 2)` the spec's table prescribes. -/
theorem grouping_r8_counterexample :
    calculate_groups 8 = [4, 4] ∧ calculate_groups 8 ≠ [4, 2, 2] := by
  constructor <;> simp [calculate_groups_eq, code_remainder_table]

/-- C2 (amended): after peeling groups of 10, the remainder
`r = count % 10` is emitted by a fixed table that matches the spec's table
at every row except `r = 8`, where the code emits `(4, 4)` rather than
`(4, 2, 2)`. -/
theorem grouping_remainder_table :
    (∀ count : Nat, calculate_groups count =
      List.replicate (count / 10) 10 ++ code_remainder_table (count % 10)) ∧
    code_remainder_table 0 = [] ∧
    code_remainder_table 1 = [1] ∧
    code_remainder_table 2 = [2] ∧
    code_remainder_table 3 = [3] ∧
    code_remainder_table 4 = [4] ∧
    code_remainder_table 5 = [3, 2] ∧
    code_remainder_table 6 = [4, 2] ∧
    code_remainder_table 7 = [4, 3] ∧
    code_remainder_table 8 = [4, 4] ∧
    code_remainder_table 9 = [4, 3, 2] :=
  ⟨calculate_groups_eq, rfl, rfl, rfl, rfl, rfl, rfl, rfl, rfl, rfl, rfl⟩

/-- C3 counterexample: `groups(25)` is `[10, 10, 3, 2]` (remainder 5 maps
to `(3, 2)` per the code's odd-remainder chain), not the spec's claimed
`[10, 10, 4, 1]`. -/
theorem grouping_25_counterexample :
    calculate_groups 25 = [10, 10, 3, 2] ∧ calculate_groups 25 ≠ [10, 10, 4, 1] := by
  constructor <;> simp [calculate_groups_eq, code_remainder_table]

/-- C3 (amended): the concrete grouping values are `groups(7) = [4, 3]`,
`groups(25) = [10, 10, 3, 2]` and `groups(0) = []`. -/
theorem grouping_concrete_values :
    calculate_groups 7 = [4, 3] ∧
    calculate_groups 25 = [10, 10, 3, 2] ∧
    calculate_groups 0 = [] := by
  refine ⟨?_, ?_, ?_⟩ <;> simp [calculate_groups_eq, code_remainder_table]

/-- C4: reward eligibility holds if and only if the history length is at
least `min_rounds` and the number of incorrect outcomes is at most
`max_wrong`; with `min_rounds = 7`, `max_wrong = 1`: 7 outcomes with
exactly 1 incorrect are eligible, 7 with 2 incorrect are not, 6 with 0
incorrect are not. -/
theorem reward_eligibility :
    (∀ (history : List Outcome) (min_rounds max_wrong : Nat),
       check_video_reward history min_rounds max_wrong = true ↔
         min_rounds ≤ history.length ∧
         (history.filter (fun h => !h.is_correct)).length ≤ max_wrong) ∧
    (∀ history : List Outcome, history.length = 7 →
       (history.filter (fun h => !h.is_correct)).length = 1 →
       check_video_reward history 7 1 = true) ∧
    (∀ history : List Outcome, history.length = 7 →
       (history.filter (fun h => !h.is_correct)).length = 2 →
       check_video_reward history 7 1 = false) ∧
    (∀ history : List Outcome, history.length = 6 →
       (history.filter (fun h => !h.is_correct)).length = 0 →
       check_video_reward history 7 1 = false) := by
  have hiff : ∀ (history : List Outcome) (min_rounds max_wrong : Nat),
      check_video_reward history min_rounds max_wrong = true ↔
        min_rounds ≤ history.length ∧
        (history.filter (fun h => !h.is_correct)).length ≤ max_wrong := by
    intro history min_rounds max_wrong
    simp [check_video_reward]
  refine ⟨hiff, ?_, ?_, ?_⟩
  · intro history h1 h2
    exact (hiff history 7 1).mpr (by omega)
  · intro history h1 h2
    rw [← Bool.not_eq_true, hiff]
    omega
  · intro history h1 h2
    rw [← Bool.not_eq_true, hiff]
    omega

/-- C4 witness: concrete 7-, 7- and 6-outcome histories exercising the
three threshold cases of `reward_eligibility`. -/
theorem reward_eligibility_witness :
    check_video_reward
      (List.replicate 6 ⟨1, 3, 3, true⟩ ++ [⟨7, 3, 4, false⟩]) 7 1 = true ∧
    check_video_reward
      (List.replicate 5 ⟨1, 3, 3, true⟩ ++ [⟨6, 3, 4, false⟩, ⟨7, 3, 4, false⟩]) 7 1 = false ∧
    check_video_reward (List.replicate 6 ⟨1, 3, 3, true⟩) 7 1 = false :=
  ⟨reward_eligibility.2.1 _ (by decide) (by decide),
   reward_eligibility.2.2.1 _ (by decide) (by decide),
   reward_eligibility.2.2.2 _ (by decide) (by decide)⟩

/-- C6: whenever a wrong-answer loop returns, it returns exactly 2
distinct values, each different from `correct`, each at least 1, each
inside the mode's sampling window (counting:
`[max(1, correct-3), correct+3]`; addition:
`[max(2, correct-3), min(max_sum+2, correct+3)]`); in particular for
`correct = 5` (counting window `[2, 8]`) both distractors lie in
`{1, ..., 8} \ {5}`. -/
theorem distractor_soundness :
    (∀ (correct : Nat) (rs ws : List Nat),
       counting_wrong_answers correct rs = some ws →
       ws.length = 2 ∧ ws.Nodup ∧
       ∀ x ∈ ws, x ≠ correct ∧ 1 ≤ x ∧ max 1 (correct - 3) ≤ x ∧ x ≤ correct + 3) ∧
    (∀ (max_sum correct : Nat), correct ≤ max_sum → ∀ (rs ws : List Nat),
       addition_wrong_answers max_sum correct rs = some ws →
       ws.length = 2 ∧ ws.Nodup ∧
       ∀ x ∈ ws, x ≠ correct ∧ 1 ≤ x ∧
         max 2 (correct - 3) ≤ x ∧ x ≤ min (max_sum + 2) (correct + 3)) ∧
    (∀ (rs ws : List Nat),
       counting_wrong_answers 5 rs = some ws →
       ∀ x ∈ ws, 1 ≤ x ∧ x ≤ 8 ∧ x ≠ 5) := by
  have hcount : ∀ (correct : Nat) (rs ws : List Nat),
      counting_wrong_answers correct rs = some ws →
      ws.length = 2 ∧ ws.Nodup ∧
      ∀ x ∈ ws, x ≠ correct ∧ 1 ≤ x ∧ max 1 (correct - 3) ≤ x ∧ x ≤ correct + 3 := by
    intro correct rs ws hws
    exact wrong_answers_loop_sound correct (max 1 (correct - 3)) (correct + 3)
      (by omega) rs [] (by simp) (by simp) (by simp) ws hws
  refine ⟨hcount, ?_, ?_⟩
  · intro max_sum correct hcs rs ws hws
    exact wrong_answers_loop_sound correct (max 2 (correct - 3))
      (min (max_sum + 2) (correct + 3))
      (by omega) rs [] (by simp) (by simp) (by simp) ws hws
  · intro rs ws hws
    intro x hx
    have h := (hcount 5 rs ws hws).2.2 x hx
    omega

/-- C6 witness: the draw list `[0, 1]` makes the counting loop for
`correct = 5` return the distractors `[2, 3]`, which satisfy every bound
of `distractor_soundness`. -/
theorem distractor_soundness_witness :
    (2 ≠ 5 ∧ 1 ≤ 2 ∧ max 1 (5 - 3) ≤ 2 ∧ 2 ≤ 5 + 3) ∧
    (3 ≠ 5 ∧ 1 ≤ 3 ∧ max 2 (5 - 3) ≤ 3 ∧ 3 ≤ min (10 + 2) (5 + 3)) ∧
    (1 ≤ 2 ∧ 2 ≤ 8 ∧ 2 ≠ 5) :=
  ⟨(distractor_soundness.1 5 [0, 1] [2, 3] (by decide)).2.2 2 (by decide),
   (distractor_soundness.2.1 10 5 (by decide) [0, 1] [2, 3] (by decide)).2.2 3 (by decide),
   distractor_soundness.2.2 [0, 1] [2, 3] (by decide) 2 (by decide)⟩

/-- C7: counting counts always land in `[1, max_count]` (the code's
hardcoded `min_count = 1` and `max_count = config.game_max_number`) and
every value of that window is attained; addition rounds always satisfy
`2 ≤ correct ≤ max_sum`, `1 ≤ num1 ≤ correct - 1`,
`num2 = correct - num1`, `num1 ≥ 1`, `num2 ≥ 1`,
`num1 + num2 = correct ≤ max_sum`, and every admissible
`(correct, num1)` pair is attained. -/
theorem round_spec_generation :
    (∀ (max_count r : Nat), 1 ≤ max_count →
       1 ≤ counting_round_count max_count r ∧
       counting_round_count max_count r ≤ max_count) ∧
    (∀ (max_count v : Nat), 1 ≤ v → v ≤ max_count →
       counting_round_count max_count (v - 1) = v) ∧
    (∀ (max_sum r1 r2 : Nat), 2 ≤ max_sum →
       2 ≤ (addition_round max_sum r1 r2).1 ∧
       (addition_round max_sum r1 r2).1 ≤ max_sum ∧
       1 ≤ (addition_round max_sum r1 r2).2.1 ∧
       (addition_round max_sum r1 r2).2.1 ≤ (addition_round max_sum r1 r2).1 - 1 ∧
       (addition_round max_sum r1 r2).2.2 =
         (addition_round max_sum r1 r2).1 - (addition_round max_sum r1 r2).2.1 ∧
       1 ≤ (addition_round max_sum r1 r2).2.2 ∧
       (addition_round max_sum r1 r2).2.1 + (addition_round max_sum r1 r2).2.2 =
         (addition_round max_sum r1 r2).1 ∧
       (addition_round max_sum r1 r2).2.1 + (addition_round max_sum r1 r2).2.2 ≤ max_sum) ∧
    (∀ (max_sum c a : Nat), 2 ≤ c → c ≤ max_sum → 1 ≤ a → a ≤ c - 1 →
       addition_round max_sum (c - 2) (a - 1) = (c, a, c - a)) := by
  refine ⟨?_, ?_, ?_, ?_⟩
  · intro max_count r h
    exact ⟨le_randint 1 max_count r, randint_le 1 max_count r h⟩
  · intro max_count v h1 h2
    exact randint_exact 1 max_count v h1 h2
  · intro max_sum r1 r2 h
    simp only [addition_round]
    have hc1 : 2 ≤ randint 2 max_sum r1 := le_randint 2 max_sum r1
    have hc2 : randint 2 max_sum r1 ≤ max_sum := randint_le 2 max_sum r1 h
    have hn1 : 1 ≤ randint 1 (randint 2 max_sum r1 - 1) r2 :=
      le_randint 1 (randint 2 max_sum r1 - 1) r2
    have hn2 : randint 1 (randint 2 max_sum r1 - 1) r2 ≤ randint 2 max_sum r1 - 1 :=
      randint_le 1 (randint 2 max_sum r1 - 1) r2 (by omega)
    refine ⟨hc1, hc2, hn1, hn2, by trivial, by omega, by omega, by omega⟩
  · intro max_sum c a h1 h2 h3 h4
    simp only [addition_round]
    rw [randint_exact 2 max_sum c h1 h2, randint_exact 1 (c - 1) a h3 h4]

/-- C7 witness: concrete counting and addition instantiations of
`round_spec_generation` (`max_count = 5`, `max_sum = 10`). -/
theorem round_spec_generation_witness :
    (1 ≤ counting_round_count 5 0 ∧ counting_round_count 5 0 ≤ 5) ∧
    counting_round_count 5 2 = 3 ∧
    (2 ≤ (addition_round 10 4 1).1 ∧
     (addition_round 10 4 1).1 ≤ 10 ∧
     1 ≤ (addition_round 10 4 1).2.1 ∧
     (addition_round 10 4 1).2.1 ≤ (addition_round 10 4 1).1 - 1 ∧
     (addition_round 10 4 1).2.2 = (addition_round 10 4 1).1 - (addition_round 10 4 1).2.1 ∧
     1 ≤ (addition_round 10 4 1).2.2 ∧
     (addition_round 10 4 1).2.1 + (addition_round 10 4 1).2.2 = (addition_round 10 4 1).1 ∧
     (addition_round 10 4 1).2.1 + (addition_round 10 4 1).2.2 ≤ 10) ∧
    addition_round 10 4 1 = (6, 2, 4) :=
  ⟨round_spec_generation.1 5 0 (by decide),
   round_spec_generation.2.1 5 3 (by decide) (by decide),
   round_spec_generation.2.2.1 10 4 1 (by decide),
   round_spec_generation.2.2.2 10 6 2 (by decide) (by decide) (by decide) (by decide)⟩

/-- C10: every distractor the addition-mode loop produces is at least 2
(the window's lower edge is `max(2, correct - 3)`), so 1 is never offered
as a wrong answer. -/
theorem addition_distractors_at_least_two
    (max_sum correct : Nat) (rs ws : List Nat)
    (hws : addition_wrong_answers max_sum correct rs = some ws) :
    ∀ x ∈ ws, 2 ≤ x := by
  intro x hx
  have h := wrong_answers_loop_lower correct (max 2 (correct - 3))
    (min (max_sum + 2) (correct + 3)) rs [] (by simp) ws hws x hx
  omega

/-- C10 witness: the draw list `[0, 1]` makes the addition loop for
`max_sum = 10`, `correct = 5` return `[2, 3]`, both at least 2. -/
theorem addition_distractors_at_least_two_witness :
    2 ≤ 2 ∧ 2 ≤ 3 :=
  ⟨addition_distractors_at_least_two 10 5 [0, 1] [2, 3] (by decide) 2 (by decide),
   addition_distractors_at_least_two 10 5 [0, 1] [2, 3] (by decide) 3 (by decide)⟩

/-- Effect of one full round driven from a state whose only pending
callback is the scheduled `_show_images`: the round counter advances, one
outcome for the current round is appended, and the session completes
(results emitted) exactly when the counter passes `game_rounds`. -/
lemma play_round_fields (cfg : Config) (a : Nat) (s : GameState)
    (hp : s.pending = [Callback.showImages]) :
    (play_round cfg a s).current_round = s.current_round + 1 ∧
    (play_round cfg a s).history =
      s.history ++ [⟨s.current_round, s.correct_answer, a, a == s.correct_answer⟩] ∧
    (s.current_round + 1 ≤ cfg.game_rounds →
      (play_round cfg a s).pending = [Callback.showImages] ∧
      (play_round cfg a s).results_shown = s.results_shown) ∧
    (cfg.game_rounds < s.current_round + 1 →
      (play_round cfg a s).pending = [] ∧
      (play_round cfg a s).results_shown = s.results_shown ++
        [s.history ++ [⟨s.current_round, s.correct_answer, a, a == s.correct_answer⟩]]) := by
  cases s with
  | mk cr ca hist btns pend rnds res vw =>
    dsimp only at hp ⊢
    subst hp
    cases hw : wrong_answers_loop ca (max 1 (ca - 3)) (ca + 3) [] rnds with
    | mk o orest =>
      obtain ⟨btns', h3⟩ : ∃ btns',
          create_answer_buttons ⟨cr, ca, hist, btns, [], rnds, res, vw⟩ =
            ⟨cr, ca, hist, btns', [], orest, res, vw⟩ := by
        cases o with
        | some ws => exact ⟨ca :: ws, by simp [create_answer_buttons, hw]⟩
        | none => exact ⟨[], by simp [create_answer_buttons, hw]⟩
      have h4 : play_round cfg a ⟨cr, ca, hist, btns, [Callback.showImages], rnds, res, vw⟩ =
          next_round cfg
            ⟨cr, ca, hist ++ [⟨cr, ca, a, a == ca⟩], btns', [], orest, res, vw⟩ := by
        simp [play_round, fire, show_images, check_answer, h3]
      rw [h4]
      simp only [next_round, show_results]
      refine ⟨by split <;> simp, by split <;> simp, ?_, ?_⟩ <;> intro h
      · rw [if_neg (by omega)]
        simp
      · rw [if_pos (by omega)]
        simp

/-- The freshly started session (`show` calls `_next_round`): round 1 is
in flight with `_show_images` pending and empty history. -/
lemma start_session_fields (cfg : Config) (rands : List Nat)
    (h : 1 ≤ cfg.game_rounds) :
    (start_session cfg rands).pending = [Callback.showImages] ∧
    (start_session cfg rands).current_round = 1 ∧
    (start_session cfg rands).history = [] ∧
    (start_session cfg rands).results_shown = [] := by
  simp only [start_session, next_round]
  rw [if_neg (by omega)]
  simp

/-- C5: in a session configured with `game_rounds = 5`, after exactly 5
answer submissions (each via the reveal/options callback sequence),
session completion fires exactly once — the results view receives exactly
one history — and that history holds exactly 5 outcomes, one per round in
order, recording the submitted answers in order. -/
theorem session_completion_5 (maxN : Nat) (rands : List Nat) (a1 a2 a3 a4 a5 : Nat) :
    (run_session_5 maxN rands a1 a2 a3 a4 a5).results_shown =
      [(run_session_5 maxN rands a1 a2 a3 a4 a5).history] ∧
    (run_session_5 maxN rands a1 a2 a3 a4 a5).results_shown.length = 1 ∧
    (run_session_5 maxN rands a1 a2 a3 a4 a5).history.length = 5 ∧
    (run_session_5 maxN rands a1 a2 a3 a4 a5).history.map (fun o => o.round) =
      [1, 2, 3, 4, 5] ∧
    (run_session_5 maxN rands a1 a2 a3 a4 a5).history.map (fun o => o.player_answer) =
      [a1, a2, a3, a4, a5] := by
  have h0 := start_session_fields ⟨5, maxN⟩ rands (by show 1 ≤ 5; omega)
  set s1 := start_session ⟨5, maxN⟩ rands with hs1
  have h1 := play_round_fields ⟨5, maxN⟩ a1 s1 h0.1
  set s2 := play_round ⟨5, maxN⟩ a1 s1 with hs2
  have h1m := h1.2.2.1 (by rw [h0.2.1]; show 1 + 1 ≤ 5; omega)
  have h2 := play_round_fields ⟨5, maxN⟩ a2 s2 h1m.1
  set s3 := play_round ⟨5, maxN⟩ a2 s2 with hs3
  have h2m := h2.2.2.1 (by rw [h1.1, h0.2.1]; show 1 + 1 + 1 ≤ 5; omega)
  have h3 := play_round_fields ⟨5, maxN⟩ a3 s3 h2m.1
  set s4 := play_round ⟨5, maxN⟩ a3 s3 with hs4
  have h3m := h3.2.2.1 (by rw [h2.1, h1.1, h0.2.1]; show 1 + 1 + 1 + 1 ≤ 5; omega)
  have h4 := play_round_fields ⟨5, maxN⟩ a4 s4 h3m.1
  set s5 := play_round ⟨5, maxN⟩ a4 s4 with hs5
  have h4m := h4.2.2.1 (by rw [h3.1, h2.1, h1.1, h0.2.1])
  have h5 := play_round_fields ⟨5, maxN⟩ a5 s5 h4m.1
  have h5f := h5.2.2.2 (by rw [h4.1, h3.1, h2.1, h1.1, h0.2.1]; show 5 < 1 + 1 + 1 + 1 + 1 + 1; omega)
  have hrun : run_session_5 maxN rands a1 a2 a3 a4 a5 = play_round ⟨5, maxN⟩ a5 s5 := rfl
  rw [hrun]
  have hist5 : s5.history =
      [⟨s1.current_round, s1.correct_answer, a1, a1 == s1.correct_answer⟩,
       ⟨s2.current_round, s2.correct_answer, a2, a2 == s2.correct_answer⟩,
       ⟨s3.current_round, s3.correct_answer, a3, a3 == s3.correct_answer⟩,
       ⟨s4.current_round, s4.correct_answer, a4, a4 == s4.correct_answer⟩] := by
    rw [h4.2.1, h3.2.1, h2.2.1, h1.2.1, h0.2.2.1]
    simp
  have histfin : (play_round ⟨5, maxN⟩ a5 s5).history =
      [⟨s1.current_round, s1.correct_answer, a1, a1 == s1.correct_answer⟩,
       ⟨s2.current_round, s2.correct_answer, a2, a2 == s2.correct_answer⟩,
       ⟨s3.current_round, s3.correct_answer, a3, a3 == s3.correct_answer⟩,
       ⟨s4.current_round, s4.correct_answer, a4, a4 == s4.correct_answer⟩,
       ⟨s5.current_round, s5.correct_answer, a5, a5 == s5.correct_answer⟩] := by
    rw [h5.2.1, hist5]
    simp
  have resfin : (play_round ⟨5, maxN⟩ a5 s5).results_shown =
      [(play_round ⟨5, maxN⟩ a5 s5).history] := by
    rw [h5f.2, h5.2.1, h4m.2, h3m.2, h2m.2, h1m.2, h0.2.2.2]
    simp
  refine ⟨resfin, by rw [resfin]; rfl, by rw [histfin]; rfl, ?_, ?_⟩
  · rw [histfin]
    simp [h4.1, h3.1, h2.1, h1.1, h0.2.1]
  · rw [histfin]
    simp

/-- C8 counterexample: from a concrete awaiting-answer state whose
buttons are `{3, 4, 5}`, submitting the out-of-set value 7 is not
rejected: `_check_answer` appends it to the history (as incorrect) and
schedules `_next_round`. -/
theorem submit_out_of_set_counterexample :
    7 ∉ awaiting_answer_state.answer_buttons ∧
    (check_answer 7 awaiting_answer_state).history ≠ awaiting_answer_state.history ∧
    (check_answer 7 awaiting_answer_state).history =
      [⟨1, 2, 2, true⟩, ⟨2, 4, 7, false⟩] ∧
    (check_answer 7 awaiting_answer_state).pending = [Callback.nextRound] := by
  decide

/-- C8 (amended): `_check_answer` never tests the submitted value against
the current answer buttons: every submission — in-set or not — appends
one outcome recording the submitted value (correct iff it equals the
correct answer) and schedules the round advance; out-of-set values are
excluded only by the UI offering exactly the three buttons. -/
theorem submit_answer_always_recorded (s : GameState) (a : Nat) :
    (check_answer a s).history =
      s.history ++ [⟨s.current_round, s.correct_answer, a, a == s.correct_answer⟩] ∧
    (check_answer a s).pending = s.pending ++ [Callback.nextRound] ∧
    (check_answer a s).current_round = s.current_round ∧
    (check_answer a s).answer_buttons = s.answer_buttons :=
  ⟨rfl, rfl, rfl, rfl⟩

/-- C9 (code evaluated at the failing input): no session/round identifier
is compared anywhere — navigating to the main menu cancels nothing, and
the still-pending `_next_round` scheduled for the abandoned session then
fires and observably mutates the engine state (round counter advances,
a fresh reveal callback is scheduled). -/
theorem stale_callback_mutates_state :
    (goto_main_menu stale_pending_state).pending = [Callback.nextRound] ∧
    (goto_main_menu stale_pending_state).view = ViewName.mainMenu ∧
    (goto_main_menu stale_pending_state).current_round = 2 ∧
    (fire ⟨5, 5⟩ (goto_main_menu stale_pending_state)).current_round = 3 ∧
    (fire ⟨5, 5⟩ (goto_main_menu stale_pending_state)).pending = [Callback.showImages] ∧
    fire ⟨5, 5⟩ (goto_main_menu stale_pending_state) ≠ goto_main_menu stale_pending_state := by
  decide

end MyMath
